import Mathlib

/-!
Verification of the starcoin chain-management core against its
natural-language specification.

The Rust sources are shallowly embedded:
* machine integers (`u64`, `U256`) become `Nat` (with explicit wrapping
  where the Rust code can overflow),
* `HashValue` becomes a 32-byte list with a length invariant,
* fallible functions return an explicit result type distinguishing
  `Ok`, `Err` (an `anyhow` error / `bail!`) and a Rust panic
  (`unwrap` on `None`),
* the generic key/value `Repository` backing `CodecStorage` is not part
  of the provided sources, so it is modelled from the spec (section 4.1):
  per-key last-write-wins maps, `get_len` = number of stored keys,
* the unbounded `loop`s of `get_branch_hashes` / `get_common_ancestor`
  are embedded with an explicit fuel parameter; running out of fuel is
  a distinguished modelling artifact (`StoreErr.fuelExhausted`), and all
  theorems supply enough fuel for the walks they describe.
-/

set_option maxRecDepth 8000

namespace Starcoin

/-! ## Byte-level utilities (big-endian fixed-width naturals) -/

/-- Big-endian byte encoding of `n` truncated/padded to exactly `w` bytes. -/
def natToBytesBE : Nat → Nat → List Nat
  | 0, _ => []
  | w + 1, n => natToBytesBE w (n / 256) ++ [n % 256]

/-- Big-endian interpretation of a byte list as a natural number. -/
def fromBytesBE (l : List Nat) : Nat :=
  l.foldl (fun acc b => acc * 256 + b) 0

theorem natToBytesBE_length (w n : Nat) : (natToBytesBE w n).length = w := by
  induction w generalizing n with
  | zero => rfl
  | succ w ih => simp [natToBytesBE, ih]

theorem fromBytesBE_aux (l : List Nat) (a : Nat) :
    l.foldl (fun acc b => acc * 256 + b) a =
      a * 256 ^ l.length + fromBytesBE l := by
  induction l generalizing a with
  | nil => simp [fromBytesBE]
  | cons b t ih =>
    simp only [List.foldl_cons, fromBytesBE, List.length_cons, Nat.zero_mul,
      Nat.zero_add]
    rw [ih (a * 256 + b), ih b]
    ring

theorem fromBytesBE_append (l₁ l₂ : List Nat) :
    fromBytesBE (l₁ ++ l₂) =
      fromBytesBE l₁ * 256 ^ l₂.length + fromBytesBE l₂ := by
  simp only [fromBytesBE, List.foldl_append]
  rw [fromBytesBE_aux l₂ (List.foldl (fun acc b => acc * 256 + b) 0 l₁)]
  rfl

theorem fromBytesBE_natToBytesBE (w n : Nat) (h : n < 256 ^ w) :
    fromBytesBE (natToBytesBE w n) = n := by
  induction w generalizing n with
  | zero =>
    simp [natToBytesBE, fromBytesBE]
    omega
  | succ w ih =>
    simp only [natToBytesBE]
    rw [fromBytesBE_append]
    have hdiv : n / 256 < 256 ^ w := by
      rw [Nat.div_lt_iff_lt_mul (by norm_num : 0 < 256)]
      calc n < 256 ^ (w + 1) := h
        _ = 256 ^ w * 256 := by ring
    rw [ih _ hdiv]
    simp [fromBytesBE]
    omega

/-! ## Core hash / address types

`HashValue` (crate `crypto`, wrapping libra-crypto) is a 32-byte value;
`AccountAddress` (src/types/src/account_address.rs) is a 16-byte value. -/

/-- Length in bytes of a `HashValue` (`size_of::<HashValue>()` in the source). -/
def HASH_LENGTH : Nat := 32

/-- `ADDRESS_LENGTH` from src/types/src/account_address.rs. -/
def ADDRESS_LENGTH : Nat := 16

/-- A content hash: exactly 32 bytes. -/
abbrev HashValue := { l : List Nat // l.length = HASH_LENGTH }

/-- `HashValue::zero()`: all zero bytes. -/
def HashValue.zero : HashValue :=
  ⟨List.replicate HASH_LENGTH 0, List.length_replicate _ _⟩

/-- `HashValue::to_vec()`. -/
def HashValue.to_vec (h : HashValue) : List Nat := h.val

/-- `HashValue::from_slice`: succeeds exactly on 32-byte input. -/
def HashValue.from_slice (l : List Nat) : Option HashValue :=
  if h : l.length = HASH_LENGTH then some ⟨l, h⟩ else none

/-- An account address: exactly 16 bytes. -/
abbrev AccountAddress := { l : List Nat // l.length = ADDRESS_LENGTH }

/-- `AccountAddress::DEFAULT` (all zero bytes). -/
def AccountAddress.default : AccountAddress :=
  ⟨List.replicate ADDRESS_LENGTH 0, List.length_replicate _ _⟩

/-- Modelled from the spec: the content-hash (`crypto_hash`) of an encoded
entity. The real implementation is a SHA3-based hash living in the
`crypto` crate (absent from the provided sources); the model folds the
canonical encoding into a 256-bit digest. No collision-freeness of this
function is assumed anywhere. -/
def digest (bytes : List Nat) : HashValue :=
  ⟨natToBytesBE HASH_LENGTH
      (bytes.foldl (fun acc b => (acc * 257 + b + 1) % 2 ^ 256) 0),
    natToBytesBE_length _ _⟩

/-! ## Block data model (src/types/src/block.rs) -/

/-- Modelled from the spec: `SignedUserTransaction` is out of scope
("ordered sequence of signed user transactions"); it is represented by
its canonical serialization bytes, treated as opaque. -/
structure SignedUserTransaction where
  scs_bytes : List Nat
  deriving DecidableEq, Repr

/-- `BlockHeader` (src/types/src/block.rs). `u64` fields are `Nat`
(well-formedness bounds them below `2^64`), `U256` fields are `Nat`
bounded below `2^256`. -/
structure BlockHeader where
  parent_hash : HashValue
  timestamp : Nat
  number : Nat
  author : AccountAddress
  accumulator_root : HashValue
  state_root : HashValue
  gas_used : Nat
  gas_limit : Nat
  difficult : Nat
  total_difficult : Nat
  consensus_header : List Nat
  deriving DecidableEq

/-- `BlockBody` (src/types/src/block.rs). -/
structure BlockBody where
  transactions : List SignedUserTransaction
  deriving DecidableEq

/-- `Block` (src/types/src/block.rs): header + body. -/
structure Block where
  header : BlockHeader
  body : BlockBody
  deriving DecidableEq

/-- Modelled from the spec: the canonical binary serialization (`scs`)
of a `BlockHeader` — fixed-width big-endian numeric fields in
declaration order, with the variable-length `consensus_header`
length-prefixed. The `scs` crate itself is not part of the provided
sources. -/
def BlockHeader.encode_value (h : BlockHeader) : List Nat :=
  h.parent_hash.val
    ++ natToBytesBE 8 h.timestamp
    ++ natToBytesBE 8 h.number
    ++ h.author.val
    ++ h.accumulator_root.val
    ++ h.state_root.val
    ++ natToBytesBE 8 h.gas_used
    ++ natToBytesBE 8 h.gas_limit
    ++ natToBytesBE 32 h.difficult
    ++ natToBytesBE 32 h.total_difficult
    ++ natToBytesBE 8 h.consensus_header.length
    ++ h.consensus_header

/-- `BlockHeader::id()`: content hash of all fields. -/
def BlockHeader.id (h : BlockHeader) : HashValue :=
  digest h.encode_value

/-- `BlockHeader::genesis_block_header` (src/types/src/block.rs): zero
parent hash, timestamp 0, number 0, default author, zero gas. -/
def BlockHeader.genesis_block_header
    (accumulator_root state_root : HashValue)
    (consensus_header : List Nat) : BlockHeader where
  parent_hash := HashValue.zero
  timestamp := 0
  number := 0
  author := AccountAddress.default
  accumulator_root := accumulator_root
  state_root := state_root
  gas_used := 0
  gas_limit := 0
  difficult := 0
  total_difficult := 0
  consensus_header := consensus_header

/-! ## Value codecs (`ValueCodec` impls of src/storage/src/block/mod.rs)

`Block`, `BlockHeader` and `BlockBody` delegate to the `scs` canonical
serialization crate, which is not part of the provided sources and is
modelled from the spec ("encodings are the entities' canonical binary
serialization"): fixed-width big-endian numeric fields in declaration
order, variable-length byte strings length-prefixed. The `Vec<HashValue>`
codec is hand-written in the source file and embedded directly. -/

/-- Decode failure of a stored value. -/
inductive DecodeErr where
  | truncated
  | trailingBytes
  deriving DecidableEq

/-- Read exactly `w` raw bytes. -/
def readBytesP (w : Nat) (l : List Nat) : Option (List Nat × List Nat) :=
  if w ≤ l.length then some (l.take w, l.drop w) else none

/-- Read a `w`-byte big-endian natural. -/
def readNat (w : Nat) (l : List Nat) : Option (Nat × List Nat) :=
  if w ≤ l.length then some (fromBytesBE (l.take w), l.drop w) else none

/-- Read a 32-byte hash. -/
def readHash (l : List Nat) : Option (HashValue × List Nat) :=
  if h : HASH_LENGTH ≤ l.length then
    some (⟨l.take HASH_LENGTH, by rw [List.length_take]; exact Nat.min_eq_left h⟩,
      l.drop HASH_LENGTH)
  else none

/-- Read a 16-byte account address. -/
def readAddress (l : List Nat) : Option (AccountAddress × List Nat) :=
  if h : ADDRESS_LENGTH ≤ l.length then
    some (⟨l.take ADDRESS_LENGTH, by rw [List.length_take]; exact Nat.min_eq_left h⟩,
      l.drop ADDRESS_LENGTH)
  else none

/-- Parse a `BlockHeader` from a byte stream, returning the remainder. -/
def parseHeader (l : List Nat) : Option (BlockHeader × List Nat) := do
  let (parent_hash, l) ← readHash l
  let (timestamp, l) ← readNat 8 l
  let (number, l) ← readNat 8 l
  let (author, l) ← readAddress l
  let (accumulator_root, l) ← readHash l
  let (state_root, l) ← readHash l
  let (gas_used, l) ← readNat 8 l
  let (gas_limit, l) ← readNat 8 l
  let (difficult, l) ← readNat 32 l
  let (total_difficult, l) ← readNat 32 l
  let (chlen, l) ← readNat 8 l
  let (consensus_header, l) ← readBytesP chlen l
  pure (⟨parent_hash, timestamp, number, author, accumulator_root, state_root,
    gas_used, gas_limit, difficult, total_difficult, consensus_header⟩, l)

/-- `ValueCodec for BlockHeader`: `decode_value` (full consumption). -/
def BlockHeader.decode_value (l : List Nat) : Except DecodeErr BlockHeader :=
  match parseHeader l with
  | some (h, []) => .ok h
  | some (_, _ :: _) => .error .trailingBytes
  | none => .error .truncated

/-- Canonical serialization of a transaction: its (opaque) `scs` bytes,
length-prefixed. -/
def SignedUserTransaction.encode_value (t : SignedUserTransaction) : List Nat :=
  natToBytesBE 8 t.scs_bytes.length ++ t.scs_bytes

/-- Parse one transaction. -/
def parseTxn (l : List Nat) : Option (SignedUserTransaction × List Nat) := do
  let (len, l) ← readNat 8 l
  let (bytes, l) ← readBytesP len l
  pure (⟨bytes⟩, l)

/-- Parse `n` transactions. -/
def parseTxns : Nat → List Nat → Option (List SignedUserTransaction × List Nat)
  | 0, l => some ([], l)
  | n + 1, l => do
    let (t, l) ← parseTxn l
    let (ts, l) ← parseTxns n l
    pure (t :: ts, l)

/-- `ValueCodec for BlockBody`: `encode_value` — count-prefixed
transaction list. -/
def BlockBody.encode_value (b : BlockBody) : List Nat :=
  natToBytesBE 8 b.transactions.length ++
    (b.transactions.map SignedUserTransaction.encode_value).flatten

/-- Parse a `BlockBody`. -/
def parseBody (l : List Nat) : Option (BlockBody × List Nat) := do
  let (n, l) ← readNat 8 l
  let (ts, l) ← parseTxns n l
  pure (⟨ts⟩, l)

/-- `ValueCodec for BlockBody`: `decode_value`. -/
def BlockBody.decode_value (l : List Nat) : Except DecodeErr BlockBody :=
  match parseBody l with
  | some (b, []) => .ok b
  | some (_, _ :: _) => .error .trailingBytes
  | none => .error .truncated

/-- `ValueCodec for Block`: `encode_value` — header then body. -/
def Block.encode_value (b : Block) : List Nat :=
  b.header.encode_value ++ b.body.encode_value

/-- Parse a `Block`. -/
def parseBlock (l : List Nat) : Option (Block × List Nat) := do
  let (h, l) ← parseHeader l
  let (b, l) ← parseBody l
  pure (⟨h, b⟩, l)

/-- `ValueCodec for Block`: `decode_value`. -/
def Block.decode_value (l : List Nat) : Except DecodeErr Block :=
  match parseBlock l with
  | some (b, []) => .ok b
  | some (_, _ :: _) => .error .trailingBytes
  | none => .error .truncated

namespace HashValueVec

/-- `ValueCodec for Vec<HashValue>`: `encode_value` — the concatenation
of `to_vec()` of each hash (src/storage/src/block/mod.rs:64). -/
def encode_value (hashes : List HashValue) : List Nat :=
  (hashes.map HashValue.to_vec).flatten

/-- The chunking loop of `decode_value`
(src/storage/src/block/mod.rs:72): take successive 32-byte windows while
a full window remains; trailing partial bytes are ignored. The fuel is a
structural-recursion bound instantiated with the input length. -/
def decode_value_aux : Nat → List Nat → List HashValue
  | 0, _ => []
  | fuel + 1, data =>
    if h : HASH_LENGTH ≤ data.length then
      ⟨data.take HASH_LENGTH, by rw [List.length_take]; exact Nat.min_eq_left h⟩ ::
        decode_value_aux fuel (data.drop HASH_LENGTH)
    else []

/-- `ValueCodec for Vec<HashValue>`: `decode_value` — the loop never
fails (`from_slice` always receives exactly 32 bytes). -/
def decode_value (data : List Nat) : Except DecodeErr (List HashValue) :=
  .ok (decode_value_aux data.length data)

end HashValueVec

/-- Bounds making a `BlockHeader`'s numeric fields representable in
their Rust widths (`u64` / `U256`); guaranteed by the Rust types. -/
def BlockHeader.WF (h : BlockHeader) : Prop :=
  h.timestamp < 256 ^ 8 ∧ h.number < 256 ^ 8 ∧ h.gas_used < 256 ^ 8 ∧
    h.gas_limit < 256 ^ 8 ∧ h.difficult < 256 ^ 32 ∧
    h.total_difficult < 256 ^ 32 ∧ h.consensus_header.length < 256 ^ 8

instance (h : BlockHeader) : Decidable h.WF := by
  unfold BlockHeader.WF; infer_instance

/-- Bounds making a `BlockBody` representable (`u64` lengths). -/
def BlockBody.WF (b : BlockBody) : Prop :=
  b.transactions.length < 256 ^ 8 ∧
    ∀ t ∈ b.transactions, t.scs_bytes.length < 256 ^ 8

instance (b : BlockBody) : Decidable b.WF := by
  unfold BlockBody.WF; infer_instance

/-- Bounds making a `Block` representable. -/
def Block.WF (b : Block) : Prop := b.header.WF ∧ b.body.WF

instance (b : Block) : Decidable b.WF := by
  unfold Block.WF; infer_instance

/-! ## Result type for fallible block-store operations

Rust's `Result<T>` (`anyhow`), with an extra constructor recording a
panic (`unwrap()` on `None`), which claim C5 must distinguish from an
error result. Error payloads mirror the distinct `bail!` sites. -/

/-- The distinct `bail!` / `ensure!` sites of src/storage/src/block/mod.rs,
plus the fuel-exhaustion modelling artifact for the unbounded loops. -/
inductive StoreErr where
  /-- `get_sons`: "cant't find sons". -/
  | sonsNotFound (parent : HashValue)
  /-- `get_branch_hashes` / `get_common_ancestor`: "get sons Error". -/
  | getSonsError (parent : HashValue)
  /-- "Error: can not find block". -/
  | blockNotFound (id : HashValue)
  /-- "Error: can not find block2". -/
  | block2NotFound (id : HashValue)
  /-- `ensure!`: "invaild block id is zero.". -/
  | zeroBlockId
  /-- "can't find block header by number". -/
  | headerByNumberNotFound (number : Nat)
  /-- "not find common ancestor". -/
  | noCommonAncestor
  /-- Modelling artifact: the fuel given to an embedded `loop` ran out. -/
  | fuelExhausted
  deriving DecidableEq

/-- The panics the embedded code can actually reach. -/
inductive PanicReason where
  /-- `Option::unwrap` called on `None`. -/
  | unwrapNone
  deriving DecidableEq

/-- Outcome of a Rust call: `Ok`, `Err`, or a panic. -/
inductive Res (α : Type) where
  | ok (a : α)
  | error (e : StoreErr)
  | panic (m : PanicReason)
  deriving DecidableEq

/-! ## The generalized key/value layer

Modelled from the spec (section 4.1): `CodecStorage`/`Repository` are not
part of the provided sources. `put(key, value)` is last-write-wins,
`get(key)` reads the latest value, and `get_len()` (used by the
latest-block lookups) is the number of stored keys. Hash-keyed columns
are total maps `HashValue → Option v`; the number index is an
association list so that its key count is observable. -/

/-- Point update of a hash-keyed column. -/
def fupdate {κ : Type} [DecidableEq κ] {α : Type}
    (f : κ → Option α) (k : κ) (v : α) : κ → Option α :=
  fun x => if x = k then some v else f x

@[simp] theorem fupdate_same {κ : Type} [DecidableEq κ] {α : Type}
    (f : κ → Option α) (k : κ) (v : α) : fupdate f k v k = some v := by
  simp [fupdate]

theorem fupdate_ne {κ : Type} [DecidableEq κ] {α : Type}
    (f : κ → Option α) (k x : κ) (v : α) (h : x ≠ k) :
    fupdate f k v x = f x := by
  simp [fupdate, h]

/-- `put` on the number index: replace the entry for `k` or append it. -/
def nput : List (Nat × HashValue) → Nat → HashValue → List (Nat × HashValue)
  | [], k, v => [(k, v)]
  | (k0, v0) :: rest, k, v =>
    if k0 = k then (k, v) :: rest else (k0, v0) :: nput rest k v

/-- `get` on the number index. -/
def nget : List (Nat × HashValue) → Nat → Option HashValue
  | [], _ => none
  | (k0, v0) :: rest, k => if k0 = k then some v0 else nget rest k

/-! ## BlockStore (src/storage/src/block/mod.rs) -/

/-- The five columns of `BlockStore`. -/
structure BlockStoreState where
  block_store : HashValue → Option Block
  header_store : HashValue → Option BlockHeader
  sons_store : HashValue → Option (List HashValue)
  body_store : HashValue → Option BlockBody
  number_store : List (Nat × HashValue)

/-- A store with all columns empty. -/
def emptyBlockStore : BlockStoreState where
  block_store := fun _ => none
  header_store := fun _ => none
  sons_store := fun _ => none
  body_store := fun _ => none
  number_store := []

namespace BlockStore

/-- `BlockStore::get_sons`. -/
def get_sons (s : BlockStoreState) (parent_hash : HashValue) :
    Res (List HashValue) :=
  match s.sons_store parent_hash with
  | some sons => .ok sons
  | none => .error (.sonsNotFound parent_hash)

/-- `BlockStore::put_sons`: append the son to the existing list, or start
a fresh singleton list when the parent has no entry yet. -/
def put_sons (s : BlockStoreState) (parent_hash son_hash : HashValue) :
    BlockStoreState :=
  match s.sons_store parent_hash with
  | some vec_hash =>
    { s with sons_store := fupdate s.sons_store parent_hash (vec_hash ++ [son_hash]) }
  | none =>
    { s with sons_store := fupdate s.sons_store parent_hash [son_hash] }

/-- `BlockStore::save`: index the whole block by its header id. -/
def save (s : BlockStoreState) (block : Block) : BlockStoreState :=
  { s with block_store := fupdate s.block_store block.header.id block }

/-- `BlockStore::save_header`: store the header under its id, then record
the parent→son relationship. -/
def save_header (s : BlockStoreState) (header : BlockHeader) : BlockStoreState :=
  let s1 := { s with header_store := fupdate s.header_store header.id header }
  put_sons s1 header.parent_hash header.id

/-- `BlockStore::save_body`. -/
def save_body (s : BlockStoreState) (block_id : HashValue) (body : BlockBody) :
    BlockStoreState :=
  { s with body_store := fupdate s.body_store block_id body }

/-- `BlockStore::save_number`. -/
def save_number (s : BlockStoreState) (number : Nat) (block_id : HashValue) :
    BlockStoreState :=
  { s with number_store := nput s.number_store number block_id }

/-- `BlockStore::commit_block`: header, number, body, then the block cache. -/
def commit_block (s : BlockStoreState) (block : Block) : BlockStoreState :=
  let block_id := block.header.id
  let s1 := save_header s block.header
  let s2 := save_number s1 block.header.number block_id
  let s3 := save_body s2 block_id block.body
  save s3 block

/-- `BlockStore::get_block_header_by_hash`. -/
def get_block_header_by_hash (s : BlockStoreState) (block_id : HashValue) :
    Res (Option BlockHeader) :=
  .ok (s.header_store block_id)

/-- `BlockStore::get_block_by_hash` (= `get`). -/
def get_block_by_hash (s : BlockStoreState) (block_id : HashValue) :
    Res (Option Block) :=
  .ok (s.block_store block_id)

/-- `BlockStore::get_block_header_by_number`: a missing number-index entry
is a `bail!`, not `None`. -/
def get_block_header_by_number (s : BlockStoreState) (number : Nat) :
    Res (Option BlockHeader) :=
  match nget s.number_store number with
  | some block_id => get_block_header_by_hash s block_id
  | none => .error (.headerByNumberNotFound number)

/-- `BlockStore::get_block_by_number`: a missing number-index entry is
`Ok(None)`. -/
def get_block_by_number (s : BlockStoreState) (number : Nat) :
    Res (Option Block) :=
  match nget s.number_store number with
  | some block_id => .ok (s.block_store block_id)
  | none => .ok none

/-- `BlockStore::get_latest_block_header`: empty number index yields
`Ok(None)`, otherwise look up number `len - 1`. -/
def get_latest_block_header (s : BlockStoreState) : Res (Option BlockHeader) :=
  let max_number := s.number_store.length
  if max_number = 0 then .ok none
  else get_block_header_by_number s (max_number - 1)

/-- `BlockStore::get_latest_block`: computes `get_len() - 1` with `u64`
arithmetic (wrapping to `2^64 - 1` on an empty index, per release-build
semantics) and then `unwrap()`s the optional block — a panic when the
looked-up number is absent. -/
def get_latest_block (s : BlockStoreState) : Res Block :=
  let max_number := s.number_store.length
  let idx := (max_number + 2 ^ 64 - 1) % 2 ^ 64
  match get_block_by_number s idx with
  | .ok (some b) => .ok b
  | .ok none => .panic .unwrapNone
  | .error e => .error e
  | .panic m => .panic m

/-- `BlockStore::get_relationship`: errors of `get_sons` are swallowed;
returns `Some(block_id1)` exactly when `block_id2` is a recorded son of
`block_id1`. -/
def get_relationship (s : BlockStoreState) (block_id1 block_id2 : HashValue) :
    Option HashValue :=
  match s.sons_store block_id1 with
  | some sons => if block_id2 ∈ sons then some block_id1 else none
  | none => none

/-- The `loop` of `BlockStore::get_branch_hashes`, with fuel. `block_id`
is the original argument (its own id is never collected), `acc` the ids
collected so far, `temp` the cursor. -/
def gbhLoop (s : BlockStoreState) (block_id : HashValue) :
    List HashValue → HashValue → Nat → Res (List HashValue)
  | _, _, 0 => .error .fuelExhausted
  | acc, temp, fuel + 1 =>
    match s.header_store temp with
    | none => .error (.blockNotFound temp)
    | some header =>
      let acc' := if header.id ≠ block_id then acc ++ [header.id] else acc
      let temp' := header.parent_hash
      match s.sons_store temp' with
      | none => .error (.getSonsError temp')
      | some sons =>
        if sons.length > 1 then .ok acc'
        else gbhLoop s block_id acc' temp' fuel

/-- `BlockStore::get_branch_hashes`: walk parent links upward, stopping
at the first ancestor with more than one recorded child. -/
def get_branch_hashes (s : BlockStoreState) (block_id : HashValue)
    (fuel : Nat) : Res (List HashValue) :=
  gbhLoop s block_id [] block_id fuel

/-- The inner `loop` of `BlockStore::get_common_ancestor`: walk
`parent_id2`'s ancestry until it lands inside `sons1`. -/
def gcaInner (s : BlockStoreState) (sons1 : List HashValue) :
    HashValue → Nat → Res Unit
  | _, 0 => .error .fuelExhausted
  | pid2, fuel + 1 =>
    if pid2 = HashValue.zero then .error .zeroBlockId
    else if pid2 ∈ sons1 then .ok ()
    else
      match s.header_store pid2 with
      | some header2 => gcaInner s sons1 header2.parent_hash fuel
      | none => .error (.block2NotFound pid2)

/-- The outer `loop` of `BlockStore::get_common_ancestor`: walk
`parent_id1`'s ancestry one step at a time; at each fork point run the
inner walk on `parent_id2`. -/
def gcaOuter (s : BlockStoreState) :
    HashValue → HashValue → Nat → Res (Option HashValue)
  | _, _, 0 => .error .fuelExhausted
  | pid1, pid2, fuel + 1 =>
    match s.header_store pid1 with
    | none => .error (.blockNotFound pid1)
    | some header =>
      let p1 := header.parent_hash
      if p1 = HashValue.zero then .error .zeroBlockId
      else
        match s.sons_store p1 with
        | none => .error (.getSonsError p1)
        | some sons1 =>
          if sons1.length > 1 then
            match gcaInner s sons1 pid2 fuel with
            | .ok _ => .ok (some p1)
            | .error e => .error e
            | .panic m => .panic m
          else gcaOuter s p1 pid2 fuel

/-- `BlockStore::get_common_ancestor`: two sons-index fast paths, then
the two nested ancestry walks. -/
def get_common_ancestor (s : BlockStoreState) (block_id1 block_id2 : HashValue)
    (fuel : Nat) : Res (Option HashValue) :=
  match get_relationship s block_id1 block_id2 with
  | some hash => .ok (some hash)
  | none =>
    match get_relationship s block_id2 block_id1 with
    | some hash => .ok (some hash)
    | none => gcaOuter s block_id1 block_id2 fuel

end BlockStore

/-! ## Chain service (src/chain/src/chain_service.rs)

`try_connect` is present in the source but both helpers it relies on are
unimplemented (`find_or_fork` is `unimplemented!()`, `select_head` is
`todo!()`), so the fork-choice behaviour is modelled from the spec
(section 4.4): find-or-fork the owning branch, apply the block, persist
it, then select the chain of greatest cumulative total difficulty as the
new head, demoting the displaced head into the branch set. -/

/-- Modelled from the spec (sections 4.3/4.4): an in-memory view over
one branch. Only the current header matters for fork choice; block data
lives in the shared store. -/
structure BlockChain where
  current_header : BlockHeader
  deriving DecidableEq

/-- Rejection of a block by a branch (header validation / execution
failure, modelled from the spec section 4.3). -/
inductive ApplyErr where
  | invalidBlock
  deriving DecidableEq

/-- Modelled from the spec (section 4.3): `apply` validates the block
against the branch head (parent linkage and number increment stand in
for consensus verification and execution) and on success advances the
branch to the block's header; failure leaves the branch unchanged. -/
def BlockChain.apply (c : BlockChain) (b : Block) :
    Except ApplyErr BlockChain :=
  if b.header.parent_hash = c.current_header.id ∧
      b.header.number = c.current_header.number + 1 then
    .ok ⟨b.header⟩
  else .error .invalidBlock

/-- Modelled from the spec (section 6, startup): `BlockChain::new` (not
part of the provided sources) reconstructs the head view from the
stored latest header, falling back to the genesis header. -/
def BlockChain.new (storage : BlockStoreState) : BlockChain :=
  match BlockStore.get_latest_block_header storage with
  | .ok (some h) => ⟨h⟩
  | _ => ⟨BlockHeader.genesis_block_header HashValue.zero HashValue.zero []⟩

/-- `ChainServiceImpl`'s state: the canonical head chain, the candidate
branches, and the shared store. -/
structure ChainServiceState where
  head : BlockChain
  branches : List BlockChain
  storage : BlockStoreState

/-- `ChainServiceImpl::new`: head from the stored latest header, empty
branch set. -/
def ChainServiceImpl.new (storage : BlockStoreState) : ChainServiceState :=
  { head := BlockChain.new storage, branches := [], storage := storage }

/-- Failure of `try_connect`. -/
inductive ConnectErr where
  | unknownParent
  | applyFailed (e : ApplyErr)
  deriving DecidableEq

/-- Modelled from the spec (section 4.4): deterministic argmax over
cumulative total difficulty. Returns the winning chain and the remaining
chains in order; an earlier chain wins ties (the current head is listed
first, so ties keep the current head — the tie-break the spec leaves
open, fixed deterministically here). -/
def pickBest : BlockChain → List BlockChain → BlockChain × List BlockChain
  | best, [] => (best, [])
  | best, c :: rest =>
    if best.current_header.total_difficult <
        c.current_header.total_difficult then
      ((pickBest c rest).1, best :: (pickBest c rest).2)
    else
      ((pickBest best rest).1, c :: (pickBest best rest).2)

/-- Modelled from the spec (section 4.4, `find_or_fork`): apply `b` to
the first branch whose tip is the block's parent; `none` when no branch
owns it. -/
def connectBranches : List BlockChain → Block →
    Option (Except ApplyErr (List BlockChain))
  | [], _ => none
  | c :: rest, b =>
    if c.current_header.id = b.header.parent_hash then
      some ((c.apply b).map (fun c2 => c2 :: rest))
    else
      (connectBranches rest b).map (fun r => r.map (fun rest2 => c :: rest2))

/-- Fork choice over the written chain collection: promote the chain of
greatest total difficulty to head, demote the rest, persist the block. -/
def selectHeadState (first : BlockChain) (others : List BlockChain)
    (storage : BlockStoreState) (b : Block) : ChainServiceState :=
  { head := (pickBest first others).1
    branches := (pickBest first others).2
    storage := BlockStore.commit_block storage b }

/-- Modelled from the spec (section 4.4): `try_connect` = find-or-fork
the owning branch, apply the block to it, persist, then `select_head`.
A block whose parent is neither a branch tip nor a stored header is
rejected; an apply failure is propagated and mutates nothing. -/
def ChainServiceImpl.try_connect (s : ChainServiceState) (b : Block) :
    Except ConnectErr ChainServiceState :=
  if s.head.current_header.id = b.header.parent_hash then
    match s.head.apply b with
    | .error e => .error (.applyFailed e)
    | .ok c2 => .ok (selectHeadState c2 s.branches s.storage b)
  else
    match connectBranches s.branches b with
    | some (.error e) => .error (.applyFailed e)
    | some (.ok branches2) => .ok (selectHeadState s.head branches2 s.storage b)
    | none =>
      match s.storage.header_store b.header.parent_hash with
      | some parent_header =>
        match (BlockChain.mk parent_header).apply b with
        | .error e => .error (.applyFailed e)
        | .ok c2 =>
          .ok (selectHeadState s.head (s.branches ++ [c2]) s.storage b)
      | none => .error .unknownParent

/-- One `try_connect` call as the caller observes it: a rejected block
leaves the service state unchanged (the error is returned to the
caller). -/
def ChainServiceImpl.step (s : ChainServiceState) (b : Block) :
    ChainServiceState :=
  match ChainServiceImpl.try_connect s b with
  | .ok t => t
  | .error _ => s

/-- The fork-choice invariant of claim C2: the head's cumulative total
difficulty dominates every branch's. -/
def headInvariant (s : ChainServiceState) : Prop :=
  ∀ c ∈ s.branches,
    c.current_header.total_difficult ≤ s.head.current_header.total_difficult

/-! ## State-sync task (src/sync/src/state_sync/mod.rs) -/

/-- Peer identity, opaque to the sync logic (modelled as a number). -/
abbrev PeerId := Nat

/-- `Roots`: the pair of (state root, accumulator root) being synced. -/
structure Roots where
  state : HashValue
  accumulator : HashValue
  deriving DecidableEq

/-- `Roots::new`. -/
def Roots.new (state accumulator : HashValue) : Roots := ⟨state, accumulator⟩

/-- `Roots::state_root`. -/
def Roots.state_root (r : Roots) : HashValue := r.state

/-- `Roots::accumulator_root`. -/
def Roots.accumulator_root (r : Roots) : HashValue := r.accumulator

/-- `HashMap::insert` on the per-peer in-flight map (assoc list with
unique keys). -/
def pinsert {T : Type} : List (PeerId × T) → PeerId → T → List (PeerId × T)
  | [], p, v => [(p, v)]
  | (p0, v0) :: rest, p, v =>
    if p0 = p then (p, v) :: rest else (p0, v0) :: pinsert rest p v

/-- `HashMap::get`. -/
def pget {T : Type} : List (PeerId × T) → PeerId → Option T
  | [], _ => none
  | (p0, v0) :: rest, p => if p0 = p then some v0 else pget rest p

/-- `HashMap::remove` (dropping the entry for the peer). -/
def premove {T : Type} : List (PeerId × T) → PeerId → List (PeerId × T)
  | [], _ => []
  | (p0, v0) :: rest, p =>
    if p0 = p then rest else (p0, v0) :: premove rest p

/-- `SyncTask<T>`: FIFO pending queue (`wait_2_sync`) plus per-peer
in-flight map (`syncing_nodes`). -/
structure SyncTask (T : Type) where
  wait_2_sync : List T
  syncing_nodes : List (PeerId × T)
  deriving DecidableEq

namespace SyncTask

/-- `SyncTask::new`. -/
def new (T : Type) : SyncTask T := ⟨[], []⟩

/-- `SyncTask::is_empty`. -/
def is_empty {T : Type} (t : SyncTask T) : Bool :=
  t.wait_2_sync.isEmpty && t.syncing_nodes.isEmpty

/-- `SyncTask::push_back`. -/
def push_back {T : Type} (t : SyncTask T) (value : T) : SyncTask T :=
  { t with wait_2_sync := t.wait_2_sync ++ [value] }

/-- `SyncTask::pop_front`. -/
def pop_front {T : Type} (t : SyncTask T) : Option T × SyncTask T :=
  match t.wait_2_sync with
  | [] => (none, t)
  | v :: rest => (some v, { t with wait_2_sync := rest })

/-- `SyncTask::clear`: empties both the queue and the in-flight map. -/
def clear {T : Type} (_t : SyncTask T) : SyncTask T := ⟨[], []⟩

/-- `SyncTask::insert`. -/
def insert {T : Type} (t : SyncTask T) (peer_id : PeerId) (value : T) :
    SyncTask T :=
  { t with syncing_nodes := pinsert t.syncing_nodes peer_id value }

/-- `SyncTask::get`. -/
def get {T : Type} (t : SyncTask T) (peer_id : PeerId) : Option T :=
  pget t.syncing_nodes peer_id

/-- `SyncTask::remove`. -/
def remove {T : Type} (t : SyncTask T) (peer_id : PeerId) : SyncTask T :=
  { t with syncing_nodes := premove t.syncing_nodes peer_id }

end SyncTask

/-- Modelled from the spec: the storage sub-roots of an account state
leaf (`AccountState` lives in a crate absent from the provided
sources). -/
structure AccountState where
  storage_roots : List (Option HashValue)
  deriving DecidableEq

/-- Modelled from the spec: an account blob as stored in a leaf —
either decodable into an `AccountState` or not. -/
abbrev AccountStateBlob := Option AccountState

/-- Modelled from the spec: `AccountState::try_from(&[u8])`. -/
def AccountState.try_from : AccountStateBlob → Except Unit AccountState
  | some a => .ok a
  | none => .error ()

/-- Modelled from the spec: a sparse-Merkle state-tree node — null,
internal (with children), or account leaf (the
`forkable-jellyfish-merkle` crate is absent from the provided
sources). -/
inductive JmNode where
  | null
  | internal (children : List HashValue)
  | leaf (blob : AccountStateBlob)
  deriving DecidableEq

/-- Canonical encoding of a state-tree node, feeding its content hash. -/
def JmNode.encode : JmNode → List Nat
  | .null => [0]
  | .internal children => 1 :: (children.map Subtype.val).flatten
  | .leaf none => [2]
  | .leaf (some a) =>
    3 :: (a.storage_roots.map (fun r =>
      match r with
      | none => [0]
      | some h => 1 :: h.val)).flatten

/-- `StateNode` (wraps a jellyfish-merkle `Node`). -/
structure StateNode where
  node : JmNode
  deriving DecidableEq

/-- `StateNode::inner`. -/
def StateNode.inner (n : StateNode) : JmNode := n.node

/-- `Node::hash`: the node's own content hash (`state_node.0.hash()`). -/
def StateNode.hash (n : StateNode) : HashValue := digest (JmNode.encode n.node)

/-- Modelled from the spec: `SPARSE_MERKLE_PLACEHOLDER_HASH`, the fixed
placeholder hash marking an absent subtree. -/
def SPARSE_MERKLE_PLACEHOLDER_HASH : HashValue :=
  ⟨List.replicate HASH_LENGTH 5, List.length_replicate _ _⟩

/-- Modelled from the spec (section 4.1): the state-node column of the
shared store, with a backend write-failure oracle — `put` may fail at
the storage-engine level, and claim C9 constrains what the task does
when it does. -/
structure NodeStore where
  nodes : HashValue → Option StateNode
  put_fails : HashValue → Bool

/-- `StateNodeStore::put` under the failure oracle. -/
def NodeStore.put (st : NodeStore) (key : HashValue) (node : StateNode) :
    Except Unit NodeStore :=
  if st.put_fails key then .error ()
  else .ok { st with nodes := fupdate st.nodes key node }

/-- The state-tree variant of `StateSyncTaskEvent`
(`StateSyncTaskEvent::new_state`). -/
structure StateSyncTaskEvent where
  peer_id : PeerId
  node_key : HashValue
  state_node : Option StateNode
  deriving DecidableEq

/-- `StateSyncTaskEvent::new_state`. -/
def StateSyncTaskEvent.new_state (peer_id : PeerId) (node_key : HashValue)
    (state_node : Option StateNode) : StateSyncTaskEvent :=
  ⟨peer_id, node_key, state_node⟩

/-- The hash verification `sync_state_node` performs on a fetch response
before sending the event: a fetch error, or a node whose own hash
differs from the requested key, degrades to `None`. -/
def verify_state_node (node_key : HashValue)
    (resp : Except Unit StateNode) : Option StateNode :=
  match resp with
  | .ok state_node =>
    if node_key = state_node.hash then some state_node else none
  | .error _ => none

/-- `StateSyncTaskActor`'s owned state (the store is passed
explicitly). -/
structure StateSyncTaskActorState where
  self_peer_id : PeerId
  roots : Roots
  state_sync_task : SyncTask (HashValue × Bool)
  accumulator_sync_task : SyncTask HashValue

/-- `StateSyncTaskActor::launch`: queue the state root (marked global)
and the accumulator root. -/
def StateSyncTaskActor.launch (self_peer_id : PeerId)
    (root : HashValue × HashValue) : StateSyncTaskActorState :=
  let roots := Roots.new root.1 root.2
  { self_peer_id := self_peer_id
    roots := roots
    state_sync_task :=
      SyncTask.push_back (SyncTask.new _) (roots.state_root, true)
    accumulator_sync_task :=
      SyncTask.push_back (SyncTask.new _) roots.accumulator_root }

/-- `StateSyncTaskActor::reset`: clear the state-tree task, replace the
roots, and re-queue the new state root. The accumulator-tree task is
not touched by the source code. -/
def StateSyncTaskActor.reset (s : StateSyncTaskActorState)
    (state_root accumulator_root : HashValue) : StateSyncTaskActorState :=
  let cleared := SyncTask.clear s.state_sync_task
  let roots := Roots.new state_root accumulator_root
  { s with
    roots := roots
    state_sync_task := SyncTask.push_back cleared (roots.state_root, true) }

/-- `StateSyncTaskActor::handle_state_sync`: accept a delivery only if
it answers this peer's recorded in-flight request; persist a delivered
node and enqueue its children (storage sub-roots for a global leaf,
all children for an internal node); re-queue the key on a missing
delivery or a persistence failure. Returns the updated actor state and
node store. -/
def StateSyncTaskActor.handle_state_sync (s : StateSyncTaskActorState)
    (store : NodeStore) (task_event : StateSyncTaskEvent) :
    StateSyncTaskActorState × NodeStore :=
  match SyncTask.get s.state_sync_task task_event.peer_id with
  | some (state_node_hash, is_global) =>
    if state_node_hash = task_event.node_key then
      let current_node_key := task_event.node_key
      let task1 := SyncTask.remove s.state_sync_task task_event.peer_id
      match task_event.state_node with
      | some state_node =>
        match store.put current_node_key state_node with
        | .error _ =>
          ({ s with state_sync_task :=
              SyncTask.push_back task1 (current_node_key, is_global) }, store)
        | .ok store2 =>
          match state_node.inner with
          | .leaf blob =>
            if is_global then
              match AccountState.try_from blob with
              | .error _ => ({ s with state_sync_task := task1 }, store2)
              | .ok account_state =>
                let task2 := account_state.storage_roots.foldl
                  (fun t key =>
                    match key with
                    | some hash =>
                      if hash ≠ SPARSE_MERKLE_PLACEHOLDER_HASH then
                        SyncTask.push_back t (hash, false)
                      else t
                    | none => t) task1
                ({ s with state_sync_task := task2 }, store2)
            else ({ s with state_sync_task := task1 }, store2)
          | .internal n =>
            let task2 := n.foldl
              (fun t child => SyncTask.push_back t (child, is_global)) task1
            ({ s with state_sync_task := task2 }, store2)
          | .null => ({ s with state_sync_task := task1 }, store2)
      | none =>
        ({ s with state_sync_task :=
            SyncTask.push_back task1 (current_node_key, is_global) }, store)
    else (s, store)
  | none => (s, store)

/-! ## Concrete scenarios used to instantiate the store claims -/

/-- A fixed non-zero hash (bytes all 9), standing for fork block `B` in
the `get_branch_hashes` scenario. -/
def exHashB : HashValue := ⟨List.replicate HASH_LENGTH 9, List.length_replicate _ _⟩

/-- A fixed hash (bytes all 7), standing for the sibling child `C2`. -/
def exHashC2 : HashValue := ⟨List.replicate HASH_LENGTH 7, List.length_replicate _ _⟩

/-- A concrete header whose parent is `exHashB`. -/
def exHeaderC1 : BlockHeader where
  parent_hash := exHashB
  timestamp := 1
  number := 2
  author := AccountAddress.default
  accumulator_root := HashValue.zero
  state_root := HashValue.zero
  gas_used := 0
  gas_limit := 0
  difficult := 0
  total_difficult := 0
  consensus_header := []

/-- The id of `exHeaderC1`, the child whose branch is queried. -/
def exC1 : HashValue := exHeaderC1.id

/-- Store for the `get_branch_hashes` scenario: `C1`'s header is stored
under its id, and `sons[B] = [C1, C2]`. -/
def exForkStore : BlockStoreState :=
  { emptyBlockStore with
    header_store := fupdate (fun _ => none) exC1 exHeaderC1
    sons_store := fupdate (fun _ => none) exHashB [exC1, exHashC2] }

/-- A fixed non-zero hash (bytes all 1), standing for the fork root `A`
in the `get_common_ancestor` scenario. -/
def exA : HashValue := ⟨List.replicate HASH_LENGTH 1, List.length_replicate _ _⟩

/-- Child `C` of `A` (distinguished by timestamp 1). -/
def exHeaderC : BlockHeader where
  parent_hash := exA
  timestamp := 1
  number := 1
  author := AccountAddress.default
  accumulator_root := HashValue.zero
  state_root := HashValue.zero
  gas_used := 0
  gas_limit := 0
  difficult := 0
  total_difficult := 0
  consensus_header := []

/-- Child `B` of `A` (distinguished by timestamp 2). -/
def exHeaderB : BlockHeader where
  parent_hash := exA
  timestamp := 2
  number := 1
  author := AccountAddress.default
  accumulator_root := HashValue.zero
  state_root := HashValue.zero
  gas_used := 0
  gas_limit := 0
  difficult := 0
  total_difficult := 0
  consensus_header := []

/-- Child `D` of `B` (timestamp 3). -/
def exHeaderD : BlockHeader where
  parent_hash := exHeaderB.id
  timestamp := 3
  number := 2
  author := AccountAddress.default
  accumulator_root := HashValue.zero
  state_root := HashValue.zero
  gas_used := 0
  gas_limit := 0
  difficult := 0
  total_difficult := 0
  consensus_header := []

/-- Store for the `get_common_ancestor` scenario: headers of `C` and `D`
stored under their ids, `sons[A] = [C, B]`. -/
def exGcaStore : BlockStoreState :=
  { emptyBlockStore with
    header_store :=
      fupdate (fupdate (fun _ => none) exHeaderC.id exHeaderC)
        exHeaderD.id exHeaderD
    sons_store := fupdate (fun _ => none) exA [exHeaderC.id, exHeaderB.id] }

/-- A concrete two-transaction body for the codec round-trip witness. -/
def exBody : BlockBody where
  transactions := [⟨[1, 2, 3]⟩, ⟨[]⟩]

/-- A concrete block for the codec round-trip witness. -/
def exBlock : Block where
  header := exHeaderC1
  body := exBody

/-- A concrete sons list for the codec round-trip witness. -/
def exHashes : List HashValue := [exHashB, exHashC2]

/-- The genesis header the fresh chain service starts from. -/
def exGenesisHeader : BlockHeader :=
  BlockHeader.genesis_block_header HashValue.zero HashValue.zero []

/-- Block 1: child of genesis, total difficulty 10. -/
def exB1 : Block where
  header :=
    { parent_hash := exGenesisHeader.id
      timestamp := 1
      number := 1
      author := AccountAddress.default
      accumulator_root := HashValue.zero
      state_root := HashValue.zero
      gas_used := 0
      gas_limit := 0
      difficult := 10
      total_difficult := 10
      consensus_header := [] }
  body := ⟨[]⟩

/-- Block 2: child of block 1, total difficulty 30 (the heavier tip). -/
def exB2 : Block where
  header :=
    { parent_hash := exB1.header.id
      timestamp := 2
      number := 2
      author := AccountAddress.default
      accumulator_root := HashValue.zero
      state_root := HashValue.zero
      gas_used := 0
      gas_limit := 0
      difficult := 20
      total_difficult := 30
      consensus_header := [] }
  body := ⟨[]⟩

/-- Block 3: a sibling of block 2 (also a child of block 1), total
difficulty 20 — it forks a branch that must stay below the head. -/
def exB3 : Block where
  header :=
    { parent_hash := exB1.header.id
      timestamp := 3
      number := 2
      author := AccountAddress.default
      accumulator_root := HashValue.zero
      state_root := HashValue.zero
      gas_used := 0
      gas_limit := 0
      difficult := 10
      total_difficult := 20
      consensus_header := [] }
  body := ⟨[]⟩

/-- The root pair a concrete sync task is launched from. -/
def exRoots0 : HashValue × HashValue :=
  (⟨List.replicate HASH_LENGTH 11, List.length_replicate _ _⟩,
   ⟨List.replicate HASH_LENGTH 12, List.length_replicate _ _⟩)

/-- A new state root handed to `reset`. -/
def exNewStateRoot : HashValue :=
  ⟨List.replicate HASH_LENGTH 13, List.length_replicate _ _⟩

/-- A new accumulator root handed to `reset`. -/
def exNewAccRoot : HashValue :=
  ⟨List.replicate HASH_LENGTH 14, List.length_replicate _ _⟩

/-- A concrete state node (one internal child) used in the response
handling witness; the requested key is its own hash. -/
def exSyncNode : StateNode :=
  ⟨.internal [⟨List.replicate HASH_LENGTH 22, List.length_replicate _ _⟩]⟩

/-- A sync actor with one in-flight request: peer 7 was asked for
`exSyncNode`'s hash in global context. -/
def exSyncActor : StateSyncTaskActorState where
  self_peer_id := 0
  roots := Roots.new HashValue.zero HashValue.zero
  state_sync_task := ⟨[], [(7, (exSyncNode.hash, true))]⟩
  accumulator_sync_task := ⟨[], []⟩

/-- A node store whose writes succeed. -/
def exOkStore : NodeStore where
  nodes := fun _ => none
  put_fails := fun _ => false

/-- A node store whose writes fail. -/
def exFailStore : NodeStore where
  nodes := fun _ => none
  put_fails := fun _ => true

/-! ## Structural lemmas about the store updates -/

namespace BlockStore

@[simp] theorem put_sons_header_store (s : BlockStoreState) (p c : HashValue) :
    (put_sons s p c).header_store = s.header_store := by
  unfold put_sons; cases s.sons_store p <;> rfl

@[simp] theorem put_sons_number_store (s : BlockStoreState) (p c : HashValue) :
    (put_sons s p c).number_store = s.number_store := by
  unfold put_sons; cases s.sons_store p <;> rfl

@[simp] theorem put_sons_block_store (s : BlockStoreState) (p c : HashValue) :
    (put_sons s p c).block_store = s.block_store := by
  unfold put_sons; cases s.sons_store p <;> rfl

@[simp] theorem save_header_number_store (s : BlockStoreState) (h : BlockHeader) :
    (save_header s h).number_store = s.number_store := by
  unfold save_header; simp

@[simp] theorem save_header_header_store (s : BlockStoreState) (h : BlockHeader) :
    (save_header s h).header_store = fupdate s.header_store h.id h := by
  unfold save_header; simp

@[simp] theorem save_number_number_store (s : BlockStoreState) (n : Nat)
    (id : HashValue) :
    (save_number s n id).number_store = nput s.number_store n id := rfl

@[simp] theorem save_number_header_store (s : BlockStoreState) (n : Nat)
    (id : HashValue) :
    (save_number s n id).header_store = s.header_store := rfl

end BlockStore

/-! ## Claims about the block store's number-indexed lookups -/

/-- C4: on a store whose block-number index is empty,
`get_latest_block_header()` returns `Ok(None)`; after saving the genesis
block's header via `save_header` and its number-0 entry via
`save_number`, `get_latest_block_header()` returns `Ok(Some(header))`
with `header.number() == 0`. -/
theorem genesis_latest_block_header (s : BlockStoreState)
    (hs : s.number_store = [])
    (accumulator_root state_root : HashValue) (consensus_header : List Nat) :
    BlockStore.get_latest_block_header s = .ok none ∧
    (let header := BlockHeader.genesis_block_header accumulator_root
        state_root consensus_header
     let s2 := BlockStore.save_number (BlockStore.save_header s header) 0
        header.id
     BlockStore.get_latest_block_header s2 = .ok (some header) ∧
       header.number = 0) := by
  refine ⟨?_, ?_, rfl⟩
  · simp [BlockStore.get_latest_block_header, hs]
  · simp [BlockStore.get_latest_block_header,
      BlockStore.get_block_header_by_number,
      BlockStore.get_block_header_by_hash, hs, nput, nget, fupdate]

/-- Witness for C4 at the empty store with zero roots. -/
theorem genesis_latest_block_header_witness :
    BlockStore.get_latest_block_header emptyBlockStore = .ok none ∧
    (let header := BlockHeader.genesis_block_header HashValue.zero
        HashValue.zero []
     let s2 := BlockStore.save_number
        (BlockStore.save_header emptyBlockStore header) 0 header.id
     BlockStore.get_latest_block_header s2 = .ok (some header) ∧
       header.number = 0) :=
  genesis_latest_block_header emptyBlockStore rfl HashValue.zero
    HashValue.zero []

/-- C5 counterexample: on the empty store, `get_latest_block()` panics
(the wrapped index underflows and the `unwrap()` hits `None`); it does
not return an error result as the claim states. -/
theorem latest_block_empty_store_not_error :
    BlockStore.get_latest_block emptyBlockStore =
      Res.panic PanicReason.unwrapNone ∧
    ¬ ∃ e, BlockStore.get_latest_block emptyBlockStore = Res.error e := by
  have hres : BlockStore.get_latest_block emptyBlockStore =
      Res.panic PanicReason.unwrapNone := by
    simp [BlockStore.get_latest_block, BlockStore.get_block_by_number,
      emptyBlockStore, nget]
  refine ⟨hres, ?_⟩
  rintro ⟨e, he⟩
  rw [hres] at he
  exact Res.noConfusion he

/-- C5 (amended): on a store whose block-number index is empty,
`get_latest_block()` panics (release-mode wrapping subtraction followed
by `unwrap()` of `None`) instead of returning an error result, while
`get_latest_block_header()` returns `Ok(None)`. -/
theorem latest_block_empty_store_panics (s : BlockStoreState)
    (hs : s.number_store = []) :
    BlockStore.get_latest_block s = Res.panic PanicReason.unwrapNone ∧
    BlockStore.get_latest_block_header s = .ok none := by
  constructor
  · simp [BlockStore.get_latest_block, BlockStore.get_block_by_number, hs, nget]
  · simp [BlockStore.get_latest_block_header, hs]

/-- Witness for the amended C5 at the empty store. -/
theorem latest_block_empty_store_panics_witness :
    BlockStore.get_latest_block emptyBlockStore =
      Res.panic PanicReason.unwrapNone ∧
    BlockStore.get_latest_block_header emptyBlockStore = .ok none :=
  latest_block_empty_store_panics emptyBlockStore rfl

/-- C10: for a block number `n` with no entry in the number index,
`get_block_header_by_number(n)` fails with an error result while
`get_block_by_number(n)` returns `Ok(None)`. -/
theorem missing_number_entry_asymmetry (s : BlockStoreState) (n : Nat)
    (h : nget s.number_store n = none) :
    BlockStore.get_block_header_by_number s n =
      Res.error (StoreErr.headerByNumberNotFound n) ∧
    BlockStore.get_block_by_number s n = .ok none := by
  constructor
  · simp [BlockStore.get_block_header_by_number, h]
  · simp [BlockStore.get_block_by_number, h]

/-- Witness for C10 at the empty store and number 0. -/
theorem missing_number_entry_asymmetry_witness :
    BlockStore.get_block_header_by_number emptyBlockStore 0 =
      Res.error (StoreErr.headerByNumberNotFound 0) ∧
    BlockStore.get_block_by_number emptyBlockStore 0 = .ok none :=
  missing_number_entry_asymmetry emptyBlockStore 0 rfl

/-- C6: saving the same header twice leaves the sons-index entry for its
parent equal, as a set of child hashes, to the entry produced by saving
it once (the second save appends a duplicate id, which is absorbed by
the set view). -/
theorem save_header_twice_sons_set_eq (s : BlockStoreState) (h : BlockHeader) :
    (((BlockStore.save_header (BlockStore.save_header s h) h).sons_store
        h.parent_hash).getD []).toFinset =
    (((BlockStore.save_header s h).sons_store h.parent_hash).getD
        []).toFinset := by
  unfold BlockStore.save_header BlockStore.put_sons
  cases hv : s.sons_store h.parent_hash with
  | none =>
    simp [fupdate, hv]
  | some v =>
    simp only [hv, fupdate]
    simp [List.toFinset_append, Finset.union_assoc]

/-- A list containing two distinct elements has more than one element. -/
theorem one_lt_length_of_two_mem {α : Type} [DecidableEq α] (l : List α)
    (a b : α) (ha : a ∈ l) (hb : b ∈ l) (hne : a ≠ b) : 1 < l.length := by
  have hcard : ({a, b} : Finset α).card ≤ l.toFinset.card := by
    apply Finset.card_le_card
    intro x hx
    simp only [Finset.mem_insert, Finset.mem_singleton] at hx
    rcases hx with rfl | rfl <;> simp [List.mem_toFinset, ha, hb]
  have h2 : ({a, b} : Finset α).card = 2 := Finset.card_pair hne
  have hle := List.toFinset_card_le l
  omega

/-- C3 counterexample: in the concrete two-children scenario
(`sons[B] = [C1, C2]`, `C1`'s header stored with parent `B`),
`get_branch_hashes(C1)` returns `Ok([])`, not `Ok([C1])`: the starting
block's own id is excluded by the `header.id() != block_id` guard. -/
theorem branch_hashes_excludes_start_cex :
    BlockStore.get_branch_hashes exForkStore exC1 2 =
      Res.ok ([] : List HashValue) ∧
    Res.ok ([] : List HashValue) ≠ Res.ok [exC1] := by
  constructor
  · rfl
  · simp

/-- C3 (amended): when block `B` has two recorded children `C1`, `C2`
and `C1`'s header is stored (under its id) with parent `B`,
`get_branch_hashes(C1)` stops its upward walk at `B` but returns the
empty list — the queried block itself is excluded by the
`header.id() != block_id` guard, and no other block is visited. -/
theorem branch_hashes_stops_at_fork (s : BlockStoreState)
    (B C1 C2 : HashValue) (h1 : BlockHeader)
    (hh : s.header_store C1 = some h1) (hid : h1.id = C1)
    (hp : h1.parent_hash = B)
    (l : List HashValue) (hsons : s.sons_store B = some l)
    (hC1 : C1 ∈ l) (hC2 : C2 ∈ l) (hne : C1 ≠ C2)
    (fuel : Nat) :
    BlockStore.get_branch_hashes s C1 (fuel + 1) = .ok [] := by
  have hlen : 1 < l.length := one_lt_length_of_two_mem l C1 C2 hC1 hC2 hne
  unfold BlockStore.get_branch_hashes BlockStore.gbhLoop
  simp [hh, hid, hp, hsons, hlen]

/-- Witness for the amended C3 at the concrete fork store. -/
theorem branch_hashes_stops_at_fork_witness :
    BlockStore.get_branch_hashes exForkStore exC1 (1 + 1) = .ok [] :=
  branch_hashes_stops_at_fork exForkStore exHashB exC1 exHashC2 exHeaderC1
    (by decide) (by decide) (by decide) [exC1, exHashC2] (by decide)
    (by decide) (by decide) (by decide) 1

/-- C1: in a three-block fork where `C` and `B` are the recorded
children of `A` (`sons[A]` contains both), `C`'s header is stored with
parent `A`, `D`'s header is stored with parent `B`, and `C`, `D` are
tips (no sons entries of their own), `get_common_ancestor(C, D)`
returns `Ok(Some(A))`. -/
theorem common_ancestor_of_fork (s : BlockStoreState)
    (A B C D : HashValue) (hC hD : BlockHeader)
    (hCs : s.header_store C = some hC) (hCp : hC.parent_hash = A)
    (hDs : s.header_store D = some hD) (hDp : hD.parent_hash = B)
    (l : List HashValue) (hl : s.sons_store A = some l)
    (hCl : C ∈ l) (hBl : B ∈ l) (hCB : C ≠ B)
    (hsonsC : s.sons_store C = none) (hsonsD : s.sons_store D = none)
    (hA0 : A ≠ HashValue.zero) (hB0 : B ≠ HashValue.zero)
    (hD0 : D ≠ HashValue.zero) (fuel : Nat) :
    BlockStore.get_common_ancestor s C D (fuel + 3) = .ok (some A) := by
  have hlen : 1 < l.length := one_lt_length_of_two_mem l C B hCl hBl hCB
  unfold BlockStore.get_common_ancestor
  rw [show BlockStore.get_relationship s C D = none by
    simp [BlockStore.get_relationship, hsonsC]]
  rw [show BlockStore.get_relationship s D C = none by
    simp [BlockStore.get_relationship, hsonsD]]
  show BlockStore.gcaOuter s C D (fuel + 3) = .ok (some A)
  unfold BlockStore.gcaOuter
  simp only [hCs, hCp, hA0, if_neg, hl, hlen, if_pos, gt_iff_lt]
  by_cases hDl : D ∈ l
  · unfold BlockStore.gcaInner
    simp [hD0, hDl]
  · unfold BlockStore.gcaInner
    simp only [hD0, hDl, hDs, hDp, if_neg, ite_false, ite_true]
    unfold BlockStore.gcaInner
    simp [hB0, hBl]

/-! ## Codec round-trip lemmas (claim C7) -/

theorem take_append_exact {α : Type} (l₁ l₂ : List α) (w : Nat)
    (h : l₁.length = w) : (l₁ ++ l₂).take w = l₁ := by
  subst h; exact List.take_left l₁ l₂

theorem drop_append_exact {α : Type} (l₁ l₂ : List α) (w : Nat)
    (h : l₁.length = w) : (l₁ ++ l₂).drop w = l₂ := by
  subst h; exact List.drop_left l₁ l₂

theorem readBytesP_append (a r : List Nat) (w : Nat) (h : a.length = w) :
    readBytesP w (a ++ r) = some (a, r) := by
  unfold readBytesP
  rw [if_pos (by simp [← h]), take_append_exact _ _ _ h,
    drop_append_exact _ _ _ h]

theorem readNat_append (w n : Nat) (r : List Nat) (hn : n < 256 ^ w) :
    readNat w (natToBytesBE w n ++ r) = some (n, r) := by
  unfold readNat
  rw [if_pos (by simp [natToBytesBE_length]),
    take_append_exact _ _ _ (natToBytesBE_length w n),
    drop_append_exact _ _ _ (natToBytesBE_length w n),
    fromBytesBE_natToBytesBE w n hn]

theorem readHash_append (hh : HashValue) (r : List Nat) :
    readHash (hh.val ++ r) = some (hh, r) := by
  unfold readHash
  rw [dif_pos (by simp [hh.property])]
  simp only [Option.some.injEq, Prod.mk.injEq]
  exact ⟨Subtype.ext (take_append_exact _ _ _ hh.property),
    drop_append_exact _ _ _ hh.property⟩

theorem readAddress_append (a : AccountAddress) (r : List Nat) :
    readAddress (a.val ++ r) = some (a, r) := by
  unfold readAddress
  rw [dif_pos (by simp [a.property])]
  simp only [Option.some.injEq, Prod.mk.injEq]
  exact ⟨Subtype.ext (take_append_exact _ _ _ a.property),
    drop_append_exact _ _ _ a.property⟩

theorem option_some_bind {α β : Type} (a : α) (f : α → Option β) :
    (some a >>= f) = f a := rfl

theorem parseHeader_append (h : BlockHeader) (r : List Nat) (hw : h.WF) :
    parseHeader (h.encode_value ++ r) = some (h, r) := by
  obtain ⟨h1, h2, h3, h4, h5, h6, h7⟩ := hw
  unfold parseHeader BlockHeader.encode_value
  simp only [List.append_assoc]
  rw [readHash_append]; simp only [option_some_bind]
  rw [readNat_append _ _ _ h1]; simp only [option_some_bind]
  rw [readNat_append _ _ _ h2]; simp only [option_some_bind]
  rw [readAddress_append]; simp only [option_some_bind]
  rw [readHash_append]; simp only [option_some_bind]
  rw [readHash_append]; simp only [option_some_bind]
  rw [readNat_append _ _ _ h3]; simp only [option_some_bind]
  rw [readNat_append _ _ _ h4]; simp only [option_some_bind]
  rw [readNat_append _ _ _ h5]; simp only [option_some_bind]
  rw [readNat_append _ _ _ h6]; simp only [option_some_bind]
  rw [readNat_append _ _ _ h7]; simp only [option_some_bind]
  rw [readBytesP_append _ _ _ rfl]
  rfl

theorem parseTxn_append (t : SignedUserTransaction) (r : List Nat)
    (ht : t.scs_bytes.length < 256 ^ 8) :
    parseTxn (t.encode_value ++ r) = some (t, r) := by
  unfold parseTxn SignedUserTransaction.encode_value
  simp only [List.append_assoc]
  rw [readNat_append _ _ _ ht]; simp only [option_some_bind]
  rw [readBytesP_append _ _ _ rfl]
  rfl

theorem parseTxns_append (ts : List SignedUserTransaction) (r : List Nat)
    (hts : ∀ t ∈ ts, t.scs_bytes.length < 256 ^ 8) :
    parseTxns ts.length
      ((ts.map SignedUserTransaction.encode_value).flatten ++ r) =
      some (ts, r) := by
  induction ts with
  | nil => simp [parseTxns]
  | cons t rest ih =>
    have ht : t.scs_bytes.length < 256 ^ 8 := hts t (by simp)
    have hrest : ∀ u ∈ rest, u.scs_bytes.length < 256 ^ 8 :=
      fun u hu => hts u (by simp [hu])
    simp [parseTxns, List.append_assoc, parseTxn_append t _ ht, ih hrest,
      option_some_bind]

theorem parseBody_append (b : BlockBody) (r : List Nat) (hw : b.WF) :
    parseBody (b.encode_value ++ r) = some (b, r) := by
  obtain ⟨hlen, hts⟩ := hw
  unfold parseBody BlockBody.encode_value
  simp only [List.append_assoc]
  rw [readNat_append _ _ _ hlen]; simp only [option_some_bind]
  rw [parseTxns_append b.transactions r hts]
  rfl

theorem parseBlock_append (b : Block) (r : List Nat) (hw : b.WF) :
    parseBlock (b.encode_value ++ r) = some (b, r) := by
  unfold parseBlock Block.encode_value
  simp only [List.append_assoc]
  rw [parseHeader_append b.header _ hw.1]; simp only [option_some_bind]
  rw [parseBody_append b.body r hw.2]
  rfl

theorem hashvec_decode_aux_encode (l : List HashValue) :
    ∀ fuel, (HashValueVec.encode_value l).length ≤ fuel →
      HashValueVec.decode_value_aux fuel (HashValueVec.encode_value l) = l := by
  induction l with
  | nil =>
    intro fuel _
    cases fuel with
    | zero => rfl
    | succ f => simp [HashValueVec.decode_value_aux, HashValueVec.encode_value,
        HASH_LENGTH]
  | cons hh t ih =>
    intro fuel hfuel
    have henc : HashValueVec.encode_value (hh :: t) =
        hh.val ++ HashValueVec.encode_value t := by
      simp [HashValueVec.encode_value, HashValue.to_vec]
    rw [henc] at hfuel ⊢
    have hlen : (hh.val ++ HashValueVec.encode_value t).length =
        HASH_LENGTH + (HashValueVec.encode_value t).length := by
      simp [hh.property]
    cases fuel with
    | zero =>
      exfalso
      rw [hlen] at hfuel
      simp [HASH_LENGTH] at hfuel
    | succ f =>
      have hge : HASH_LENGTH ≤ (hh.val ++ HashValueVec.encode_value t).length := by
        rw [hlen]; omega
      unfold HashValueVec.decode_value_aux
      rw [dif_pos hge]
      have htake := take_append_exact hh.val (HashValueVec.encode_value t) _
        hh.property
      have hdrop := drop_append_exact hh.val (HashValueVec.encode_value t) _
        hh.property
      have hfe : (HashValueVec.encode_value t).length ≤ f := by
        rw [hlen] at hfuel
        have : 0 < HASH_LENGTH := by simp [HASH_LENGTH]
        omega
      simp only [hdrop]
      rw [ih f hfe]
      simp only [List.cons.injEq]
      exact ⟨Subtype.ext htake, trivial⟩

/-- C7: for every well-formed `BlockHeader`, `BlockBody` and `Block`,
and for every sons list `Vec<HashValue>`, decoding the encoding returns
the original value (`decode_value(encode_value(x)) == Ok(x)`). -/
theorem value_codec_roundtrip (h : BlockHeader) (b : BlockBody) (blk : Block)
    (l : List HashValue) (hw : h.WF) (bw : b.WF) (blkw : blk.WF) :
    BlockHeader.decode_value (BlockHeader.encode_value h) = .ok h ∧
    BlockBody.decode_value (BlockBody.encode_value b) = .ok b ∧
    Block.decode_value (Block.encode_value blk) = .ok blk ∧
    HashValueVec.decode_value (HashValueVec.encode_value l) = .ok l := by
  refine ⟨?_, ?_, ?_, ?_⟩
  · unfold BlockHeader.decode_value
    rw [show BlockHeader.encode_value h = BlockHeader.encode_value h ++ []
      by simp, parseHeader_append h [] hw]
  · unfold BlockBody.decode_value
    rw [show BlockBody.encode_value b = BlockBody.encode_value b ++ []
      by simp, parseBody_append b [] bw]
  · unfold Block.decode_value
    rw [show Block.encode_value blk = Block.encode_value blk ++ []
      by simp, parseBlock_append blk [] blkw]
  · unfold HashValueVec.decode_value
    rw [hashvec_decode_aux_encode l _ (Nat.le_refl _)]

/-- Witness for C7 at concrete values. -/
theorem value_codec_roundtrip_witness :
    BlockHeader.decode_value (BlockHeader.encode_value exHeaderC1) =
      .ok exHeaderC1 ∧
    BlockBody.decode_value (BlockBody.encode_value exBody) = .ok exBody ∧
    Block.decode_value (Block.encode_value exBlock) = .ok exBlock ∧
    HashValueVec.decode_value (HashValueVec.encode_value exHashes) =
      .ok exHashes :=
  value_codec_roundtrip exHeaderC1 exBody exBlock exHashes (by decide)
    (by decide) (by decide)

/-! ## State-sync theorems (claims C8, C9) -/

/-- C8 counterexample: launch a sync task and reset it to new roots —
the accumulator-tree task still holds the previously queued old
accumulator root (which differs from the new one), so the reset does
not clear both tasks as the claim states. -/
theorem reset_leaves_accumulator_task_cex :
    exRoots0.2 ∈ (StateSyncTaskActor.reset
        (StateSyncTaskActor.launch 0 exRoots0) exNewStateRoot
        exNewAccRoot).accumulator_sync_task.wait_2_sync ∧
    exRoots0.2 ≠ exNewAccRoot := by
  constructor
  · decide
  · decide

/-- C8 (amended): `reset(state_root, accumulator_root)` clears the
state-tree task's pending queue and in-flight map and restarts it from
the new state root, and replaces the stored roots with the new pair —
but the accumulator-tree task is left exactly as it was, previously
queued and in-flight accumulator work included. -/
theorem reset_clears_state_task_only (s : StateSyncTaskActorState)
    (state_root accumulator_root : HashValue) :
    (StateSyncTaskActor.reset s state_root
        accumulator_root).state_sync_task.wait_2_sync =
      [(state_root, true)] ∧
    (StateSyncTaskActor.reset s state_root
        accumulator_root).state_sync_task.syncing_nodes = [] ∧
    (StateSyncTaskActor.reset s state_root accumulator_root).roots =
      Roots.new state_root accumulator_root ∧
    (StateSyncTaskActor.reset s state_root
        accumulator_root).accumulator_sync_task = s.accumulator_sync_task :=
  ⟨rfl, rfl, rfl, rfl⟩

theorem put_ok_nodes (store store2 : NodeStore) (k : HashValue)
    (n : StateNode) (h : store.put k n = .ok store2) :
    store2.nodes k = some n := by
  unfold NodeStore.put at h
  split at h
  · exact Except.noConfusion h
  · injection h with h2
    subst h2
    simp

/-- C9: for a state-node fetch response answering the in-flight request
recorded for a peer: (1) a fetch failure or a returned node whose own
hash differs from the requested key (both degraded to `None` by the
verification in `sync_state_node`) persists nothing and re-queues the
requested key; (2) a node whose hash matches and persists successfully
is stored under the requested key; (3) if persisting fails the same key
is re-queued rather than dropped and the store is unchanged. -/
theorem state_node_response_handling (s : StateSyncTaskActorState)
    (peer : PeerId) (node_key : HashValue) (g : Bool)
    (hin : SyncTask.get s.state_sync_task peer = some (node_key, g)) :
    (∀ (store : NodeStore) (resp : Except Unit StateNode),
      verify_state_node node_key resp = none →
      StateSyncTaskActor.handle_state_sync s store
          (StateSyncTaskEvent.new_state peer node_key
            (verify_state_node node_key resp)) =
        ({ s with state_sync_task := (SyncTask.push_back
            (SyncTask.remove s.state_sync_task peer) (node_key, g)) },
          store)) ∧
    (∀ (store store2 : NodeStore) (n : StateNode), n.hash = node_key →
      store.put node_key n = .ok store2 →
      (StateSyncTaskActor.handle_state_sync s store
          (StateSyncTaskEvent.new_state peer node_key
            (verify_state_node node_key (.ok n)))).2.nodes node_key =
        some n) ∧
    (∀ (store : NodeStore) (n : StateNode), n.hash = node_key →
      store.put node_key n = .error () →
      StateSyncTaskActor.handle_state_sync s store
          (StateSyncTaskEvent.new_state peer node_key
            (verify_state_node node_key (.ok n))) =
        ({ s with state_sync_task := (SyncTask.push_back
            (SyncTask.remove s.state_sync_task peer) (node_key, g)) },
          store)) := by
  refine ⟨?_, ?_, ?_⟩
  · intro store resp hv
    unfold StateSyncTaskActor.handle_state_sync
    simp [StateSyncTaskEvent.new_state, hin, hv]
  · intro store store2 n hn hput
    rcases n with ⟨nd⟩
    unfold StateSyncTaskActor.handle_state_sync
    simp only [StateSyncTaskEvent.new_state, verify_state_node, hin, hn,
      if_true, eq_self_iff_true, ite_true, StateNode.inner, hput]
    cases nd with
    | null => simpa using put_ok_nodes store store2 node_key ⟨.null⟩ hput
    | internal children =>
      simpa using put_ok_nodes store store2 node_key ⟨.internal children⟩ hput
    | leaf blob =>
      cases g with
      | false => simpa using put_ok_nodes store store2 node_key ⟨.leaf blob⟩ hput
      | true =>
        cases blob with
        | none => simpa using put_ok_nodes store store2 node_key ⟨.leaf none⟩ hput
        | some a =>
          simpa using put_ok_nodes store store2 node_key ⟨.leaf (some a)⟩ hput
  · intro store n hn hput
    unfold StateSyncTaskActor.handle_state_sync
    simp [StateSyncTaskEvent.new_state, verify_state_node, hin, hn, hput]

/-- Witness for C9: a concrete in-flight request of peer 7, exercised
with a failed fetch, a successful persist, and a failing persist. -/
theorem state_node_response_handling_witness :
    (StateSyncTaskActor.handle_state_sync exSyncActor exOkStore
        (StateSyncTaskEvent.new_state 7 exSyncNode.hash
          (verify_state_node exSyncNode.hash (.error ()))) =
      ({ exSyncActor with state_sync_task := (SyncTask.push_back
          (SyncTask.remove exSyncActor.state_sync_task 7)
          (exSyncNode.hash, true)) }, exOkStore)) ∧
    ((StateSyncTaskActor.handle_state_sync exSyncActor exOkStore
        (StateSyncTaskEvent.new_state 7 exSyncNode.hash
          (verify_state_node exSyncNode.hash (.ok exSyncNode)))).2.nodes
        exSyncNode.hash = some exSyncNode) ∧
    (StateSyncTaskActor.handle_state_sync exSyncActor exFailStore
        (StateSyncTaskEvent.new_state 7 exSyncNode.hash
          (verify_state_node exSyncNode.hash (.ok exSyncNode))) =
      ({ exSyncActor with state_sync_task := (SyncTask.push_back
          (SyncTask.remove exSyncActor.state_sync_task 7)
          (exSyncNode.hash, true)) }, exFailStore)) :=
  have h := state_node_response_handling exSyncActor 7 exSyncNode.hash true rfl
  ⟨h.1 exOkStore (.error ()) rfl,
   h.2.1 exOkStore
     ⟨fupdate exOkStore.nodes exSyncNode.hash exSyncNode,
       exOkStore.put_fails⟩ exSyncNode rfl rfl,
   h.2.2 exFailStore exSyncNode rfl rfl⟩

/-! ## Fork-choice theorems (claim C2) -/

theorem le_pickBest_fst (cs : List BlockChain) (c : BlockChain) :
    c.current_header.total_difficult ≤
      (pickBest c cs).1.current_header.total_difficult := by
  induction cs generalizing c with
  | nil => simp [pickBest]
  | cons d rest ih =>
    by_cases hlt : c.current_header.total_difficult <
        d.current_header.total_difficult
    · simp only [pickBest, if_pos hlt]
      exact le_trans (le_of_lt hlt) (ih d)
    · simp only [pickBest, if_neg hlt]
      exact ih c

theorem pickBest_snd_le (cs : List BlockChain) (c : BlockChain) :
    ∀ x ∈ (pickBest c cs).2, x.current_header.total_difficult ≤
      (pickBest c cs).1.current_header.total_difficult := by
  induction cs generalizing c with
  | nil => simp [pickBest]
  | cons d rest ih =>
    intro x hx
    by_cases hlt : c.current_header.total_difficult <
        d.current_header.total_difficult
    · simp only [pickBest, if_pos hlt] at hx ⊢
      rcases List.mem_cons.mp hx with rfl | hx'
      · exact le_trans (le_of_lt hlt) (le_pickBest_fst rest d)
      · exact ih d x hx'
    · simp only [pickBest, if_neg hlt] at hx ⊢
      rcases List.mem_cons.mp hx with rfl | hx'
      · exact le_trans (le_of_not_lt hlt) (le_pickBest_fst rest c)
      · exact ih c x hx'

theorem selectHeadState_invariant (first : BlockChain)
    (others : List BlockChain) (storage : BlockStoreState) (b : Block) :
    headInvariant (selectHeadState first others storage b) :=
  fun c hc => pickBest_snd_le others first c hc

theorem try_connect_ok_invariant (s : ChainServiceState) (b : Block)
    (t : ChainServiceState)
    (htc : ChainServiceImpl.try_connect s b = .ok t) : headInvariant t := by
  unfold ChainServiceImpl.try_connect at htc
  split at htc
  · split at htc
    · exact Except.noConfusion htc
    · injection htc with h
      subst h
      exact selectHeadState_invariant _ _ _ _
  · split at htc
    · exact Except.noConfusion htc
    · injection htc with h
      subst h
      exact selectHeadState_invariant _ _ _ _
    · split at htc
      · split at htc
        · exact Except.noConfusion htc
        · injection htc with h
          subst h
          exact selectHeadState_invariant _ _ _ _
      · exact Except.noConfusion htc

theorem step_preserves_invariant (s : ChainServiceState) (b : Block)
    (hs : headInvariant s) : headInvariant (ChainServiceImpl.step s b) := by
  unfold ChainServiceImpl.step
  cases htc : ChainServiceImpl.try_connect s b with
  | ok t => exact try_connect_ok_invariant s b t htc
  | error e => exact hs

/-- C2: after any sequence of `try_connect` calls on a freshly
constructed chain service (each rejected block leaving the state
unchanged), the total difficulty of the head chain's current header is
at least the total difficulty of every branch's current header. -/
theorem head_total_difficulty_ge_branches (storage : BlockStoreState)
    (blocks : List Block) :
    headInvariant (blocks.foldl ChainServiceImpl.step
      (ChainServiceImpl.new storage)) := by
  have main : ∀ (bs : List Block) (s : ChainServiceState), headInvariant s →
      headInvariant (bs.foldl ChainServiceImpl.step s) := by
    intro bs
    induction bs with
    | nil => exact fun s hs => hs
    | cons b rest ih =>
      intro s hs
      rw [List.foldl_cons]
      exact ih (ChainServiceImpl.step s b) (step_preserves_invariant s b hs)
  refine main blocks (ChainServiceImpl.new storage) ?_
  intro c hc
  simp [ChainServiceImpl.new] at hc

/-- Witness for C2: the invariant after connecting a chain of two blocks
plus a lighter forked sibling (which lands in `branches`). -/
theorem head_total_difficulty_ge_branches_witness :
    headInvariant ([exB1, exB2, exB3].foldl ChainServiceImpl.step
      (ChainServiceImpl.new emptyBlockStore)) :=
  head_total_difficulty_ge_branches emptyBlockStore [exB1, exB2, exB3]

/-- Witness for C1 at the concrete four-block fork. -/
theorem common_ancestor_of_fork_witness :
    BlockStore.get_common_ancestor exGcaStore exHeaderC.id exHeaderD.id
      (0 + 3) = .ok (some exA) :=
  common_ancestor_of_fork exGcaStore exA exHeaderB.id exHeaderC.id
    exHeaderD.id exHeaderC exHeaderD (by decide) (by decide) (by decide)
    (by decide) [exHeaderC.id, exHeaderB.id] (by decide) (by decide)
    (by decide) (by decide) (by decide) (by decide) (by decide) (by decide)
    (by decide) 0

end Starcoin
